import Mathlib

/-!
# Verification of the segment planner in `mocap_cutter.py`

This file embeds the segment-planning portion of `create_alternating_video`
(`src/mocap_cutter.py`) in Lean and proves or refutes the specification's
claims about it.

Embedding decisions:

* Times and durations are rationals (`ℚ`).  The Python code computes with
  floats, but every claim is about the algebraic structure of the plan
  (ordering, contiguity, fixed constants such as `glitch_duration = 0.3`),
  which the float program realises exactly on the rationals it manipulates.
* Randomness: each iteration of the Phase-B `while` loop draws, in order,
  `random.uniform(0.5, 1.5)` and then `random.random()`.  We model the
  generator's output as a stream `s : ℕ → ℚ × ℚ`, where `(s n).1` is the
  `uniform` draw and `(s n).2` the `random` draw of iteration `n`.
  `ValidStream` records the range guarantees of those library calls.
* The `while current < end_original_start` loop is embedded with explicit
  fuel; `fuelFor` supplies a fuel bound proven sufficient for every valid
  stream (each iteration either clamps to the loop bound and exits or
  advances `current` by at least `0.5`).
-/

/-- The two source videos: the Python strings `'faceswap'` (the modified
video) and `'original'`. -/
inductive Source where
  | faceswap
  | original
  deriving DecidableEq, Repr

/-- A planned segment: the Python tuple `(start, end, video_type, is_glitch)`
from `create_alternating_video` (`end` is a Lean keyword; we use `stop`). -/
structure Segment where
  start : ℚ
  stop : ℚ
  source : Source
  isGlitch : Bool
  deriving DecidableEq, Repr

/-- Range guarantees of the Python RNG: `random.uniform(0.5, 1.5)` yields a
value in `[0.5, 1.5]` and `random.random()` a value in `[0, 1)`. -/
def ValidStream (s : ℕ → ℚ × ℚ) : Prop :=
  ∀ n, 1/2 ≤ (s n).1 ∧ (s n).1 ≤ 3/2 ∧ 0 ≤ (s n).2 ∧ (s n).2 < 1

/-- `seg_end = min(current + seg_duration, end_original_start)` of loop
iteration `n`, where `seg_duration` is the iteration's
`random.uniform(0.5, 1.5)` draw (`src/mocap_cutter.py`, lines 117–118). -/
def segEndOf (s : ℕ → ℚ × ℚ) (eos current : ℚ) (n : ℕ) : ℚ :=
  min (current + (s n).1) eos

/-- `video_type = 'faceswap' if random.random() < 0.7 else 'original'` of
loop iteration `n` (`src/mocap_cutter.py`, line 121). -/
def vtOf (s : ℕ → ℚ × ℚ) (n : ℕ) : Source :=
  if (s n).2 < 7/10 then Source.faceswap else Source.original

/-- The Phase-B `while current < end_original_start` loop of
`create_alternating_video` (`src/mocap_cutter.py`, lines 115–134), embedded
with fuel.  Arguments: draw stream `s`, loop bound `eos`
(`end_original_start`), fuel, draw index `n`, cursor `current`, and
`lastType` (`last_type`).  Returns the emitted segments together with the
final cursor value.

Per iteration the Python code draws `seg_duration = random.uniform(0.5, 1.5)`
and clamps `seg_end = min(current + seg_duration, end_original_start)`; draws
`video_type` (faceswap with probability 0.7); if the type switched and a
glitch fits (`current + 0.3 < seg_end`) it emits a glitch segment and
advances `current` by `0.3`; then, if `current < seg_end`, emits a normal
segment; finally sets `current = seg_end` and `last_type = video_type`. -/
def loopB (s : ℕ → ℚ × ℚ) (eos : ℚ) : ℕ → ℕ → ℚ → Source → List Segment × ℚ
  | 0, _, current, _ => ([], current)
  | fuel+1, n, current, lastType =>
    if current < eos then
      let segEnd := segEndOf s eos current n
      let vt : Source := vtOf s n
      let glitches : List Segment :=
        if vt ≠ lastType ∧ current + 3/10 < segEnd then
          [⟨current, current + 3/10, vt, true⟩]
        else []
      let current' : ℚ :=
        if vt ≠ lastType ∧ current + 3/10 < segEnd then current + 3/10 else current
      let normals : List Segment :=
        if current' < segEnd then [⟨current', segEnd, vt, false⟩] else []
      let rest := loopB s eos fuel (n+1) segEnd vt
      (glitches ++ (normals ++ rest.1), rest.2)
    else ([], current)

/-- Fuel sufficient for `loopB` starting from `duration / 2`: each
non-final iteration advances the cursor by at least `1/2`. -/
def fuelFor (duration : ℚ) : ℕ := (⌈duration⌉).toNat + 1

/-- The segments emitted by the Phase-B loop of `create_alternating_video`
for a given stream and duration (cursor starts at `halfway = duration / 2`,
bound is `end_original_start = duration - 2`, initial `last_type` is
`'faceswap'`). -/
def midSegs (s : ℕ → ℚ × ℚ) (duration : ℚ) : List Segment :=
  (loopB s (duration - 2) (fuelFor duration) 0 (duration / 2) Source.faceswap).1

/-- The final cursor value of the Phase-B loop. -/
def midFinal (s : ℕ → ℚ × ℚ) (duration : ℚ) : ℚ :=
  (loopB s (duration - 2) (fuelFor duration) 0 (duration / 2) Source.faceswap).2

/-- The full plan built by `create_alternating_video`
(`src/mocap_cutter.py`, lines 99–141): the Phase-A segment
`(0, halfway, 'faceswap', False)`, the Phase-B loop's segments, and the
Phase-C tail: if `end_original_start + glitch_duration < duration` a glitch
segment and a final normal segment, otherwise a single normal segment, all
tagged `'original'`.  `glitch_duration = 0.3`, the original tail length is
`2` seconds. -/
def plan (s : ℕ → ℚ × ℚ) (duration : ℚ) : List Segment :=
  let halfway := duration / 2
  let endOriginalStart := duration - 2
  let glitchDuration : ℚ := 3/10
  let tail : List Segment :=
    if endOriginalStart + glitchDuration < duration then
      [⟨endOriginalStart, endOriginalStart + glitchDuration, Source.original, true⟩,
       ⟨endOriginalStart + glitchDuration, duration, Source.original, false⟩]
    else
      [⟨endOriginalStart, duration, Source.original, false⟩]
  ⟨0, halfway, Source.faceswap, false⟩ :: (midSegs s duration ++ tail)

/-- Contiguity of a segment list: `ChainFrom a l b` holds when the segments
of `l` tile the interval from `a` to `b` in order (each segment starts where
the previous one stopped). -/
def ChainFrom : ℚ → List Segment → ℚ → Prop
  | a, [], b => a = b
  | a, seg :: rest, b => seg.start = a ∧ ChainFrom seg.stop rest b

/-- A constant draw stream, used to instantiate theorems at concrete inputs. -/
def constStream (u r : ℚ) : ℕ → ℚ × ℚ := fun _ => (u, r)

lemma constStream_valid {u r : ℚ} (h1 : 1/2 ≤ u) (h2 : u ≤ 3/2) (h3 : 0 ≤ r)
    (h4 : r < 1) : ValidStream (constStream u r) := by
  intro n
  exact ⟨h1, h2, h3, h4⟩

lemma chainFrom_append {a b c : ℚ} {xs ys : List Segment}
    (hx : ChainFrom a xs b) (hy : ChainFrom b ys c) :
    ChainFrom a (xs ++ ys) c := by
  induction xs generalizing a with
  | nil => simpa [ChainFrom] using hx ▸ hy
  | cons seg rest ih =>
    obtain ⟨h1, h2⟩ := hx
    exact ⟨h1, ih h2⟩

lemma chainFrom_le {a b : ℚ} {l : List Segment}
    (hc : ChainFrom a l b) (hpos : ∀ seg ∈ l, seg.start < seg.stop) :
    a ≤ b := by
  induction l generalizing a with
  | nil => exact le_of_eq hc
  | cons seg rest ih =>
    obtain ⟨h1, h2⟩ := hc
    have h3 : seg.start < seg.stop := hpos seg (by simp)
    have h4 : seg.stop ≤ b := ih h2 (fun x hx => hpos x (by simp [hx]))
    linarith [h1 ▸ h3]

lemma chainFrom_bounds {a b : ℚ} {l : List Segment}
    (hc : ChainFrom a l b) (hpos : ∀ seg ∈ l, seg.start < seg.stop) :
    ∀ seg ∈ l, a ≤ seg.start ∧ seg.stop ≤ b := by
  induction l generalizing a with
  | nil => simp
  | cons seg rest ih =>
    obtain ⟨h1, h2⟩ := hc
    intro x hx
    rcases List.mem_cons.mp hx with h | h
    · subst h
      have h3 : x.stop ≤ b :=
        chainFrom_le h2 (fun y hy => hpos y (by simp [hy]))
      exact ⟨le_of_eq h1.symm, h3⟩
    · have h4 := ih h2 (fun y hy => hpos y (by simp [hy])) x h
      have h5 : seg.start < seg.stop := hpos seg (by simp)
      constructor
      · linarith [h4.1, h1 ▸ h5]
      · exact h4.2

lemma loopB_exit {s : ℕ → ℚ × ℚ} {eos current : ℚ} {fuel n : ℕ}
    {lastType : Source} (h : ¬ current < eos) :
    loopB s eos fuel n current lastType = ([], current) := by
  cases fuel <;> simp [loopB, h]

lemma segEndOf_gt {s : ℕ → ℚ × ℚ} {eos current : ℚ} {n : ℕ}
    (hs : ValidStream s) (hc : current < eos) :
    current < segEndOf s eos current n := by
  have hu := (hs n).1
  exact lt_min (by linarith) hc

lemma segEndOf_le {s : ℕ → ℚ × ℚ} {eos current : ℚ} {n : ℕ} :
    segEndOf s eos current n ≤ eos := min_le_right _ _

lemma loopB_glitch {s : ℕ → ℚ × ℚ} {eos current : ℚ} {fuel n : ℕ}
    {lastType : Source} (hc : current < eos) (hg : vtOf s n ≠ lastType)
    (hr : current + 3/10 < segEndOf s eos current n) :
    loopB s eos (fuel+1) n current lastType =
      (⟨current, current + 3/10, vtOf s n, true⟩ ::
       ⟨current + 3/10, segEndOf s eos current n, vtOf s n, false⟩ ::
       (loopB s eos fuel (n+1) (segEndOf s eos current n) (vtOf s n)).1,
       (loopB s eos fuel (n+1) (segEndOf s eos current n) (vtOf s n)).2) := by
  have hcond : vtOf s n ≠ lastType ∧ current + 3/10 < segEndOf s eos current n :=
    ⟨hg, hr⟩
  simp only [loopB]
  rw [if_pos hc]
  simp only [if_pos hcond, if_pos hr]
  simp

lemma loopB_noglitch {s : ℕ → ℚ × ℚ} {eos current : ℚ} {fuel n : ℕ}
    {lastType : Source}
    (hc : current < eos)
    (hng : ¬ (vtOf s n ≠ lastType ∧ current + 3/10 < segEndOf s eos current n))
    (hcs : current < segEndOf s eos current n) :
    loopB s eos (fuel+1) n current lastType =
      (⟨current, segEndOf s eos current n, vtOf s n, false⟩ ::
       (loopB s eos fuel (n+1) (segEndOf s eos current n) (vtOf s n)).1,
       (loopB s eos fuel (n+1) (segEndOf s eos current n) (vtOf s n)).2) := by
  simp only [loopB]
  rw [if_pos hc]
  simp only [if_neg hng, if_pos hcs]
  simp

lemma loopB_sound {s : ℕ → ℚ × ℚ} (hs : ValidStream s) {eos : ℚ} :
    ∀ (fuel n : ℕ) (current : ℚ) (lastType : Source),
      current ≤ eos → 2 * (eos - current) < (fuel : ℚ) →
      (loopB s eos fuel n current lastType).2 = eos ∧
      ChainFrom current (loopB s eos fuel n current lastType).1 eos ∧
      ∀ seg ∈ (loopB s eos fuel n current lastType).1, seg.start < seg.stop := by
  intro fuel
  induction fuel with
  | zero =>
    intro n current lastType hle hf
    exfalso
    push_cast at hf
    linarith
  | succ f ih =>
    intro n current lastType hle hf
    by_cases hc : current < eos
    case neg =>
      have he : current = eos := le_antisymm hle (not_lt.mp hc)
      rw [loopB_exit hc]
      refine ⟨he, ?_, by simp⟩
      simpa [ChainFrom] using he
    case pos =>
      have hcs : current < segEndOf s eos current n := segEndOf_gt hs hc
      have hse : segEndOf s eos current n ≤ eos := segEndOf_le
      have htail :
          (loopB s eos f (n+1) (segEndOf s eos current n) (vtOf s n)).2 = eos ∧
          ChainFrom (segEndOf s eos current n)
            (loopB s eos f (n+1) (segEndOf s eos current n) (vtOf s n)).1 eos ∧
          ∀ seg ∈ (loopB s eos f (n+1) (segEndOf s eos current n) (vtOf s n)).1,
            seg.start < seg.stop := by
        by_cases heq : segEndOf s eos current n = eos
        · rw [loopB_exit (by rw [heq]; exact lt_irrefl eos)]
          refine ⟨heq, ?_, by simp⟩
          simpa [ChainFrom] using heq
        · have hlt : segEndOf s eos current n < eos := lt_of_le_of_ne hse heq
          have humin : segEndOf s eos current n = current + (s n).1 := by
            rcases min_choice (current + (s n).1) eos with h1 | h1
            · exact h1
            · exact absurd h1 heq
          have hfuel : 2 * (eos - segEndOf s eos current n) < (f : ℚ) := by
            have hu := (hs n).1
            push_cast at hf ⊢
            rw [humin]
            linarith
          exact ih (n+1) (segEndOf s eos current n) (vtOf s n) (le_of_lt hlt) hfuel
      by_cases hg : vtOf s n ≠ lastType ∧ current + 3/10 < segEndOf s eos current n
      · rw [loopB_glitch hc hg.1 hg.2]
        refine ⟨htail.1, ⟨rfl, rfl, htail.2.1⟩, ?_⟩
        intro seg hseg
        simp only [List.mem_cons] at hseg
        rcases hseg with h | h | h
        · rw [h]
          show current < current + 3/10
          linarith
        · rw [h]
          exact hg.2
        · exact htail.2.2 seg h
      · rw [loopB_noglitch hc hg hcs]
        refine ⟨htail.1, ⟨rfl, htail.2.1⟩, ?_⟩
        intro seg hseg
        simp only [List.mem_cons] at hseg
        rcases hseg with h | h
        · rw [h]
          exact hcs
        · exact htail.2.2 seg h

/-- Relation for claim C9: a glitch segment must be immediately followed by a
normal segment carrying the same source. -/
def glitchStep (a b : Segment) : Prop :=
  a.isGlitch = true → b.isGlitch = false ∧ b.source = a.source

/-- Relation for claim C3: a glitch segment may only follow a segment of a
different source. -/
def switchStep (a b : Segment) : Prop :=
  b.isGlitch = true → b.source ≠ a.source

instance : DecidableRel glitchStep := fun a b => by
  unfold glitchStep
  infer_instance

instance : DecidableRel switchStep := fun a b => by
  unfold switchStep
  infer_instance

lemma getLast?_cons_of {P : Segment → Prop} {l : List Segment} {a : Segment}
    (ha : P a) (hl : ∀ y ∈ l.getLast?, P y) : ∀ y ∈ (a :: l).getLast?, P y := by
  cases l with
  | nil => simpa using ha
  | cons b m => simpa [List.getLast?_cons_cons] using hl

lemma getLast?_cons_cons_of {P : Segment → Prop} {l : List Segment}
    {a b : Segment} (hl : ∀ y ∈ (b :: l).getLast?, P y) :
    ∀ y ∈ (a :: b :: l).getLast?, P y := by
  simpa [List.getLast?_cons_cons] using hl

lemma loopB_struct {s : ℕ → ℚ × ℚ} (hs : ValidStream s) {eos : ℚ} :
    ∀ (fuel n : ℕ) (current : ℚ) (lastType : Source),
      (∀ seg ∈ (loopB s eos fuel n current lastType).1,
        seg.isGlitch = true → seg.stop = seg.start + 3/10) ∧
      List.Chain' glitchStep (loopB s eos fuel n current lastType).1 ∧
      (∀ a ∈ (loopB s eos fuel n current lastType).1.getLast?,
        a.isGlitch = false) ∧
      (∀ a ∈ (loopB s eos fuel n current lastType).1.head?,
        a.isGlitch = true → a.source ≠ lastType) ∧
      List.Chain' switchStep (loopB s eos fuel n current lastType).1 := by
  intro fuel
  induction fuel with
  | zero =>
    intro n current lastType
    simp [loopB]
  | succ f ih =>
    intro n current lastType
    by_cases hc : current < eos
    case neg =>
      rw [loopB_exit hc]
      simp
    case pos =>
      have hcs : current < segEndOf s eos current n := segEndOf_gt hs hc
      obtain ⟨ih1, ih2, ih3, ih4, ih5⟩ := ih (n+1) (segEndOf s eos current n) (vtOf s n)
      by_cases hg : vtOf s n ≠ lastType ∧ current + 3/10 < segEndOf s eos current n
      · rw [loopB_glitch hc hg.1 hg.2]
        refine ⟨?_, ?_, ?_, ?_, ?_⟩
        · intro seg hseg
          simp only [List.mem_cons] at hseg
          rcases hseg with h | h | h
          · rw [h]
            intro _
            rfl
          · rw [h]
            intro hfalse
            exact absurd hfalse (by simp)
          · exact ih1 seg h
        · rw [List.chain'_cons]
          refine ⟨fun _ => ⟨rfl, rfl⟩, ?_⟩
          rw [List.chain'_cons']
          refine ⟨fun h _ hfalse => absurd hfalse (by simp), ih2⟩
        · exact getLast?_cons_cons_of (getLast?_cons_of (by simp) ih3)
        · intro a ha
          simp only [List.head?_cons, Option.mem_some_iff] at ha
          rw [← ha]
          intro _
          exact hg.1
        · rw [List.chain'_cons]
          refine ⟨fun hfalse => absurd hfalse (by simp), ?_⟩
          rw [List.chain'_cons']
          refine ⟨?_, ih5⟩
          intro h hh hglitch
          have := ih4 h (by simpa using hh) hglitch
          simpa using this
      · rw [loopB_noglitch hc hg hcs]
        refine ⟨?_, ?_, ?_, ?_, ?_⟩
        · intro seg hseg
          simp only [List.mem_cons] at hseg
          rcases hseg with h | h
          · rw [h]
            intro hfalse
            exact absurd hfalse (by simp)
          · exact ih1 seg h
        · rw [List.chain'_cons']
          refine ⟨fun h _ hfalse => absurd hfalse (by simp), ih2⟩
        · exact getLast?_cons_of (by simp) ih3
        · intro a ha
          simp only [List.head?_cons, Option.mem_some_iff] at ha
          rw [← ha]
          intro hfalse
          exact absurd hfalse (by simp)
        · rw [List.chain'_cons']
          refine ⟨?_, ih5⟩
          intro h hh hglitch
          have := ih4 h (by simpa using hh) hglitch
          simpa using this

lemma original_eq_faceswap_iff : (Source.original = Source.faceswap) ↔ False := by
  decide

lemma faceswap_eq_original_iff : (Source.faceswap = Source.original) ↔ False := by
  decide

/-- The Phase-C branch condition `end_original_start + glitch_duration <
duration` is `duration - 2 + 0.3 < duration`, which holds for every
duration: the `else` branch of lines 140–141 is unreachable. -/
lemma tail_cond (d : ℚ) : d - 2 + 3/10 < d := by linarith

/-- The plan always consists of the Phase-A segment, the loop's segments,
and the two-segment Phase-C tail (the single-segment branch is dead code by
`tail_cond`). -/
lemma plan_eq (s : ℕ → ℚ × ℚ) (d : ℚ) :
    plan s d =
      ⟨0, d/2, Source.faceswap, false⟩ ::
        (midSegs s d ++
          [⟨d - 2, d - 2 + 3/10, Source.original, true⟩,
           ⟨d - 2 + 3/10, d, Source.original, false⟩]) := by
  simp only [plan]
  rw [if_pos (tail_cond d)]

lemma fuelFor_big (d : ℚ) : 2 * ((d - 2) - d / 2) < (fuelFor d : ℚ) := by
  have h1 : d ≤ (⌈d⌉ : ℚ) := Int.le_ceil d
  have h2 : (⌈d⌉ : ℤ) ≤ ((⌈d⌉.toNat : ℕ) : ℤ) := Int.self_le_toNat _
  have h3 : ((⌈d⌉ : ℤ) : ℚ) ≤ (((⌈d⌉.toNat : ℕ) : ℤ) : ℚ) := by exact_mod_cast h2
  unfold fuelFor
  push_cast at h3 ⊢
  linarith

/-- If the duration is at least `4` the cursor starts at or before the loop
bound, and the loop tiles `[duration/2, duration-2]` with positive-length
segments, finishing exactly at the bound. -/
lemma midSegs_spec {s : ℕ → ℚ × ℚ} (hs : ValidStream s) {d : ℚ} (hd : 4 ≤ d) :
    midFinal s d = d - 2 ∧ ChainFrom (d / 2) (midSegs s d) (d - 2) ∧
      ∀ seg ∈ midSegs s d, seg.start < seg.stop := by
  have hle : d / 2 ≤ d - 2 := by linarith
  exact loopB_sound hs (fuelFor d) 0 (d / 2) Source.faceswap hle (fuelFor_big d)

/-- If the duration is at most `4` the loop condition fails immediately and
Phase B emits nothing. -/
lemma midSegs_empty {s : ℕ → ℚ × ℚ} {d : ℚ} (hd : d ≤ 4) : midSegs s d = [] := by
  unfold midSegs
  rw [loopB_exit (by intro h; linarith)]

/-- The plan always ends with the Phase-C pair: the final segment is the
normal Original segment `[d - 1.7, d)` and the one before it is the Original
glitch `[d - 2, d - 1.7)`. -/
lemma plan_last_segments (s : ℕ → ℚ × ℚ) (d : ℚ) :
    (plan s d).getLast? = some ⟨d - 2 + 3/10, d, Source.original, false⟩ ∧
    (plan s d).dropLast.getLast? =
      some ⟨d - 2, d - 2 + 3/10, Source.original, true⟩ := by
  rw [plan_eq]
  have hshape :
      (⟨0, d/2, Source.faceswap, false⟩ : Segment) ::
        (midSegs s d ++
          [⟨d - 2, d - 2 + 3/10, Source.original, true⟩,
           ⟨d - 2 + 3/10, d, Source.original, false⟩]) =
      ((⟨0, d/2, Source.faceswap, false⟩ :: midSegs s d ++
          [⟨d - 2, d - 2 + 3/10, Source.original, true⟩]) ++
        [⟨d - 2 + 3/10, d, Source.original, false⟩]) := by
    simp
  rw [hshape, List.getLast?_concat, List.dropLast_concat, List.getLast?_concat]
  exact ⟨rfl, rfl⟩

lemma plan_head (s : ℕ → ℚ × ℚ) (d : ℚ) :
    (plan s d).head? = some ⟨0, d / 2, Source.faceswap, false⟩ := by
  rw [plan_eq]
  rfl

/-- C7: In every generated Plan, segment 0 has source Modified
(`'faceswap'`), start 0, is not a transition, and ends at `duration / 2`:
Phase A is the single segment `(0, halfway, 'faceswap', False)` appended
first, for every stream and every duration. -/
theorem C7_first_segment (s : ℕ → ℚ × ℚ) (d : ℚ) :
    (plan s d).head? = some ⟨0, d / 2, Source.faceswap, false⟩ :=
  plan_head s d

/-- C8: In every generated Plan the last non-transition segment is the last
segment: it has source Original, stop equal to the duration, and start
`duration - tailLength + transitionLength = d - 2 + 0.3`, and the segment
emitted just before it is the Phase-C transition `[d - 2, d - 2 + 0.3)`
tagged Original — the transition always fits, so the second disjunct of the
claim always holds. -/
theorem C8_last_segment (s : ℕ → ℚ × ℚ) (d : ℚ) :
    (plan s d).getLast? = some ⟨d - 2 + 3/10, d, Source.original, false⟩ ∧
    (plan s d).dropLast.getLast? =
      some ⟨d - 2, d - 2 + 3/10, Source.original, true⟩ :=
  plan_last_segments s d

/-- C10: Every generated Plan, for every input duration (including
degenerate ones) and every stream, contains at least two segments: Phase A
always contributes the first segment and Phase C always appends a final
Original segment. -/
theorem C10_at_least_two_segments (s : ℕ → ℚ × ℚ) (d : ℚ) :
    2 ≤ (plan s d).length := by
  rw [plan_eq]
  simp

/-- C2: The planner is deterministic in the seed.  Python's
`random.seed(seed)` (line 97) initialises the Mersenne-Twister generator as
a pure, platform-independent function of the seed, and all draws of the run
come from that one generator in order; we model this by letting the draw
stream be an arbitrary function `seedDraws` of the seed.  Two runs with the
same duration (`> tailLength = 2`) and the same seed then produce
identical Plans. -/
theorem C2_deterministic (seedDraws : ℤ → ℕ → ℚ × ℚ) (d : ℚ)
    (seed₁ seed₂ : ℤ) (hseed : seed₁ = seed₂) (hd : 2 < d) :
    plan (seedDraws seed₁) d = plan (seedDraws seed₂) d := by
  rw [hseed]

/-- Witness for C2 at duration 10 and seed 42. -/
theorem C2_witness :
    (42 : ℤ) = 42 ∧ (2 : ℚ) < 10 ∧
    plan ((fun _ : ℤ => constStream (1/2) 0) 42) 10 =
      plan ((fun _ : ℤ => constStream (1/2) 0) 42) 10 :=
  ⟨rfl, by norm_num,
    C2_deterministic (fun _ => constStream (1/2) 0) 10 42 42 rfl (by norm_num)⟩

/-- Counterexample to C1: at duration 3 (accepted by the planner — there is
no validation) the Plan is not contiguous: Phase A ends at `3/2` but the
Phase-C transition starts at `1`, so the segments overlap and do not tile
`[0, 3]`. -/
theorem C1_counterexample :
    ¬ ChainFrom 0 (plan (constStream (1/2) 0) 3) 3 := by
  have hp : plan (constStream (1/2) 0) 3 =
      [⟨0, 3/2, Source.faceswap, false⟩, ⟨1, 13/10, Source.original, true⟩,
       ⟨13/10, 3, Source.original, false⟩] := by
    norm_num [plan, midSegs, fuelFor, loopB, segEndOf, vtOf, constStream,
      original_eq_faceswap_iff, faceswap_eq_original_iff]
  rw [hp]
  intro h
  have h2 : (1 : ℚ) = 3/2 := h.2.1
  norm_num at h2

/-- C1 (amended): for every duration at least 4 — so that Phase A ends no
later than the loop bound `duration - 2` — and every valid stream, the
Plan's segments are contiguous, non-overlapping, satisfy
`0 ≤ start < stop ≤ duration`, and tile `[0, duration]` exactly, in order.
For durations below 4 the phases overlap (see the counterexample). -/
theorem C1_contiguous {s : ℕ → ℚ × ℚ} (hs : ValidStream s) {d : ℚ}
    (hd : 4 ≤ d) :
    ChainFrom 0 (plan s d) d ∧
    ∀ seg ∈ plan s d, 0 ≤ seg.start ∧ seg.start < seg.stop ∧ seg.stop ≤ d := by
  obtain ⟨hfin, hchain, hpos⟩ := midSegs_spec hs hd
  have htail : ChainFrom (d - 2)
      [⟨d - 2, d - 2 + 3/10, Source.original, true⟩,
       ⟨d - 2 + 3/10, d, Source.original, false⟩] d := ⟨rfl, rfl, rfl⟩
  have hall : ChainFrom 0 (plan s d) d := by
    rw [plan_eq]
    exact ⟨rfl, chainFrom_append hchain htail⟩
  have hposall : ∀ seg ∈ plan s d, seg.start < seg.stop := by
    intro seg hseg
    rw [plan_eq] at hseg
    simp only [List.mem_cons, List.mem_append, List.mem_singleton,
      List.not_mem_nil, or_false] at hseg
    rcases hseg with h | h | h | h
    · rw [h]
      show (0 : ℚ) < d / 2
      linarith
    · exact hpos seg h
    · rw [h]
      show d - 2 < d - 2 + 3/10
      linarith
    · rw [h]
      exact tail_cond d
  refine ⟨hall, fun seg hseg => ?_⟩
  have hb := chainFrom_bounds hall hposall seg hseg
  exact ⟨hb.1, hposall seg hseg, hb.2⟩

/-- Witness for C1 (amended) at duration 10 with a valid constant stream. -/
theorem C1_witness :
    ValidStream (constStream (1/2) 0) ∧ (4 : ℚ) ≤ 10 ∧
    (ChainFrom 0 (plan (constStream (1/2) 0) 10) 10 ∧
     ∀ seg ∈ plan (constStream (1/2) 0) 10,
       0 ≤ seg.start ∧ seg.start < seg.stop ∧ seg.stop ≤ 10) := by
  have hv : ValidStream (constStream (1/2) 0) :=
    constStream_valid (by norm_num) (by norm_num) (by norm_num) (by norm_num)
  exact ⟨hv, by norm_num, C1_contiguous hv (by norm_num)⟩

/-- Counterexample to C4: at probed duration 0 the code does not fail — it
has no duration validation at all — and still produces a (three-segment)
Plan. -/
theorem C4_counterexample :
    plan (constStream (1/2) 0) 0 ≠ [] ∧
    (plan (constStream (1/2) 0) 0).length = 3 := by
  have hp : plan (constStream (1/2) 0) 0 =
      [⟨0, 0, Source.faceswap, false⟩, ⟨-2, -17/10, Source.original, true⟩,
       ⟨-17/10, 0, Source.original, false⟩] := by
    norm_num [plan, midSegs, fuelFor, loopB, segEndOf, vtOf, constStream,
      original_eq_faceswap_iff, faceswap_eq_original_iff]
  rw [hp]
  exact ⟨by simp, rfl⟩

/-- C4 (amended): `create_alternating_video` performs no duration
validation and has no `InvalidDuration` error path; for every duration
`≤ 0` it still produces a Plan, consisting of exactly the Phase-A segment
and the two Phase-C segments. -/
theorem C4_no_validation {s : ℕ → ℚ × ℚ} {d : ℚ} (hd : d ≤ 0) :
    plan s d =
      [⟨0, d / 2, Source.faceswap, false⟩,
       ⟨d - 2, d - 2 + 3/10, Source.original, true⟩,
       ⟨d - 2 + 3/10, d, Source.original, false⟩] := by
  rw [plan_eq, midSegs_empty (by linarith)]
  rfl

/-- Witness for C4 (amended) at duration 0. -/
theorem C4_witness :
    (0 : ℚ) ≤ 0 ∧
    plan (constStream (3/2) (1/2)) 0 =
      [⟨0, (0 : ℚ) / 2, Source.faceswap, false⟩,
       ⟨(0 : ℚ) - 2, (0 : ℚ) - 2 + 3/10, Source.original, true⟩,
       ⟨(0 : ℚ) - 2 + 3/10, 0, Source.original, false⟩] :=
  ⟨le_refl 0, C4_no_validation (le_refl 0)⟩

/-- C5: for every duration in `(0, 2]` (at most the tail length) and every
stream, the Phase-B loop executes zero iterations (it emits no segments),
and no emitted segment has `start ≥ stop`: the Phase-C glitch branch is
always taken and both its segments have positive length, as does the
Phase-A segment. -/
theorem C5_degenerate {s : ℕ → ℚ × ℚ} {d : ℚ} (h0 : 0 < d) (h2 : d ≤ 2) :
    midSegs s d = [] ∧ ∀ seg ∈ plan s d, seg.start < seg.stop := by
  have hmid : midSegs s d = [] := midSegs_empty (by linarith)
  refine ⟨hmid, ?_⟩
  intro seg hseg
  rw [plan_eq, hmid] at hseg
  simp only [List.nil_append, List.mem_cons, List.not_mem_nil, or_false]
    at hseg
  rcases hseg with h | h | h
  · rw [h]
    show (0 : ℚ) < d / 2
    linarith
  · rw [h]
    show d - 2 < d - 2 + 3/10
    linarith
  · rw [h]
    exact tail_cond d

/-- Witness for C5 at the spec's degenerate duration `1.5`. -/
theorem C5_witness :
    (0 : ℚ) < 3/2 ∧ (3/2 : ℚ) ≤ 2 ∧
    (midSegs (constStream (1/2) 0) (3/2) = [] ∧
     ∀ seg ∈ plan (constStream (1/2) 0) (3/2), seg.start < seg.stop) :=
  ⟨by norm_num, by norm_num, C5_degenerate (by norm_num) (by norm_num)⟩

/-- Counterexample to C3: at duration 5 with draws `(0.5, 0.8)` the loop's
only segment is Original, and Phase C then still emits its Original-tagged
transition `[3, 3.3)` immediately after an Original segment: a transition is
emitted although the adjacent source types do not differ. -/
theorem C3_counterexample :
    ¬ List.Chain' switchStep (plan (constStream (1/2) (4/5)) 5) := by
  have hp : plan (constStream (1/2) (4/5)) 5 =
      [⟨0, 5/2, Source.faceswap, false⟩, ⟨5/2, 14/5, Source.original, true⟩,
       ⟨14/5, 3, Source.original, false⟩, ⟨3, 33/10, Source.original, true⟩,
       ⟨33/10, 5, Source.original, false⟩] := by
    norm_num [plan, midSegs, fuelFor, Int.toNat_ofNat, loopB, segEndOf, vtOf,
      constStream, original_eq_faceswap_iff, faceswap_eq_original_iff]
  rw [hp]
  rw [List.chain'_cons, List.chain'_cons, List.chain'_cons, List.chain'_cons]
  intro h
  exact h.2.2.1 rfl rfl

/-- C3 (amended): every transition segment in a generated Plan has length
exactly `transitionLength = 0.3`; every transition emitted during Phases A–B
(the Phase-A segment followed by the loop's output) is emitted only when its
tagged source differs from the source of the segment emitted immediately
before it; but the final Phase-C transition is emitted unconditionally
(whenever `d - 2 + 0.3 < d`, which always holds) regardless of the
preceding segment's source. -/
theorem C3_glitch_discipline {s : ℕ → ℚ × ℚ} (hs : ValidStream s) (d : ℚ) :
    (∀ seg ∈ plan s d, seg.isGlitch = true → seg.stop - seg.start = 3/10) ∧
    List.Chain' switchStep
      (⟨0, d / 2, Source.faceswap, false⟩ :: midSegs s d) ∧
    plan s d =
      ⟨0, d / 2, Source.faceswap, false⟩ ::
        (midSegs s d ++
          [⟨d - 2, d - 2 + 3/10, Source.original, true⟩,
           ⟨d - 2 + 3/10, d, Source.original, false⟩]) := by
  obtain ⟨st1, st2, st3, st4, st5⟩ :=
    loopB_struct hs (fuelFor d) 0 (d / 2) Source.faceswap
  refine ⟨?_, ?_, plan_eq s d⟩
  · intro seg hseg
    rw [plan_eq] at hseg
    simp only [List.mem_cons, List.mem_append, List.mem_singleton,
      List.not_mem_nil, or_false] at hseg
    rcases hseg with h | h | h | h
    · rw [h]
      intro hfalse
      exact absurd hfalse (by simp)
    · intro hg
      have := st1 seg h hg
      linarith
    · rw [h]
      intro _
      show d - 2 + 3/10 - (d - 2) = 3/10
      ring
    · rw [h]
      intro hfalse
      exact absurd hfalse (by simp)
  · rw [List.chain'_cons']
    exact ⟨fun y hy hg => st4 y hy hg, st5⟩

/-- Witness for C3 (amended) at duration 5 with a valid constant stream. -/
theorem C3_witness :
    ValidStream (constStream (1/2) (4/5)) ∧
    ((∀ seg ∈ plan (constStream (1/2) (4/5)) 5,
        seg.isGlitch = true → seg.stop - seg.start = 3/10) ∧
     List.Chain' switchStep
       (⟨0, (5 : ℚ) / 2, Source.faceswap, false⟩ ::
         midSegs (constStream (1/2) (4/5)) 5) ∧
     plan (constStream (1/2) (4/5)) 5 =
       ⟨0, (5 : ℚ) / 2, Source.faceswap, false⟩ ::
         (midSegs (constStream (1/2) (4/5)) 5 ++
           [⟨(5 : ℚ) - 2, (5 : ℚ) - 2 + 3/10, Source.original, true⟩,
            ⟨(5 : ℚ) - 2 + 3/10, 5, Source.original, false⟩])) := by
  have hv : ValidStream (constStream (1/2) (4/5)) :=
    constStream_valid (by norm_num) (by norm_num) (by norm_num) (by norm_num)
  exact ⟨hv, C3_glitch_discipline hv 5⟩

/-- C9: in every generated Plan (any duration, any valid stream), each
transition segment is immediately followed by a non-transition segment with
the same source, and the Plan never ends with a transition; hence no two
transitions are adjacent. -/
theorem C9_glitch_followed {s : ℕ → ℚ × ℚ} (hs : ValidStream s) (d : ℚ) :
    List.Chain' glitchStep (plan s d) ∧
    ∀ a ∈ (plan s d).getLast?, a.isGlitch = false := by
  obtain ⟨st1, st2, st3, st4, st5⟩ :=
    loopB_struct hs (fuelFor d) 0 (d / 2) Source.faceswap
  constructor
  · rw [plan_eq, ← List.cons_append, List.chain'_append]
    refine ⟨?_, ?_, ?_⟩
    · rw [List.chain'_cons']
      exact ⟨fun y hy hfalse => absurd hfalse (by simp), st2⟩
    · rw [List.chain'_cons]
      exact ⟨fun _ => ⟨rfl, rfl⟩, List.chain'_singleton _⟩
    · intro x hx y hy
      have hxg : x.isGlitch = false := getLast?_cons_of (by simp) st3 x hx
      intro hfalse
      rw [hxg] at hfalse
      exact absurd hfalse (by simp)
  · intro a ha
    rw [(plan_last_segments s d).1] at ha
    simp only [Option.mem_def, Option.some.injEq] at ha
    rw [← ha]

/-- Witness for C9 at duration 7 with a valid constant stream. -/
theorem C9_witness :
    ValidStream (constStream 1 (9/10)) ∧
    (List.Chain' glitchStep (plan (constStream 1 (9/10)) 7) ∧
     ∀ a ∈ (plan (constStream 1 (9/10)) 7).getLast?, a.isGlitch = false) := by
  have hv : ValidStream (constStream 1 (9/10)) :=
    constStream_valid (by norm_num) (by norm_num) (by norm_num) (by norm_num)
  exact ⟨hv, C9_glitch_followed hv 7⟩

/-- Counterexample to C6: at duration 10 (stream drawing `(1.5, 0)` each
iteration) the final segment of the Plan is `[8.3, 10)` — not `[8, 10)` —
and no transition `[7.7, 8)` exists anywhere in the Plan: the code's
Phase-C transition occupies `[8, 8.3)` and pushes the final segment to
start at `8.3`. -/
theorem C6_counterexample :
    (plan (constStream (3/2) 0) 10).getLast? =
      some ⟨83/10, 10, Source.original, false⟩ ∧
    (83 : ℚ)/10 ≠ 8 ∧
    (⟨77/10, 8, Source.original, true⟩ : Segment) ∉
      plan (constStream (3/2) 0) 10 := by
  have hp : plan (constStream (3/2) 0) 10 =
      [⟨0, 5, Source.faceswap, false⟩, ⟨5, 13/2, Source.faceswap, false⟩,
       ⟨13/2, 8, Source.faceswap, false⟩, ⟨8, 83/10, Source.original, true⟩,
       ⟨83/10, 10, Source.original, false⟩] := by
    norm_num [plan, midSegs, fuelFor, Int.toNat_ofNat, loopB, segEndOf, vtOf,
      constStream, original_eq_faceswap_iff, faceswap_eq_original_iff]
  rw [hp]
  refine ⟨rfl, by norm_num, ?_⟩
  intro hmem
  simp only [List.mem_cons, List.not_mem_nil, or_false, Segment.mk.injEq]
    at hmem
  rcases hmem with h | h | h | h | h <;> norm_num at h

/-- C6 (amended): for duration 10 and every valid stream, the first segment
is `[0, 5)` Modified, the Phase-B cursor finishes exactly at `8`, and the
Plan ends with the Phase-C transition `[8, 8.3)` Original followed by the
final normal segment `[8.3, 10)` Original (not `[7.7, 8)` and `[8, 10)` as
the claim states). -/
theorem C6_scenario {s : ℕ → ℚ × ℚ} (hs : ValidStream s) :
    (plan s 10).head? = some ⟨0, 5, Source.faceswap, false⟩ ∧
    midFinal s 10 = 8 ∧
    (plan s 10).getLast? = some ⟨83/10, 10, Source.original, false⟩ ∧
    (plan s 10).dropLast.getLast? =
      some ⟨8, 83/10, Source.original, true⟩ := by
  refine ⟨?_, ?_, ?_, ?_⟩
  · rw [plan_head]
    norm_num
  · rw [(midSegs_spec hs (by norm_num : (4 : ℚ) ≤ 10)).1]
    norm_num
  · rw [(plan_last_segments s 10).1]
    simp only [Option.some.injEq, Segment.mk.injEq]
    norm_num
  · rw [(plan_last_segments s 10).2]
    simp only [Option.some.injEq, Segment.mk.injEq]
    norm_num

/-- Witness for C6 (amended) with a valid constant stream. -/
theorem C6_witness :
    ValidStream (constStream (1/2) (4/5)) ∧
    ((plan (constStream (1/2) (4/5)) 10).head? =
        some ⟨0, 5, Source.faceswap, false⟩ ∧
     midFinal (constStream (1/2) (4/5)) 10 = 8 ∧
     (plan (constStream (1/2) (4/5)) 10).getLast? =
        some ⟨83/10, 10, Source.original, false⟩ ∧
     (plan (constStream (1/2) (4/5)) 10).dropLast.getLast? =
        some ⟨8, 83/10, Source.original, true⟩) := by
  have hv : ValidStream (constStream (1/2) (4/5)) :=
    constStream_valid (by norm_num) (by norm_num) (by norm_num) (by norm_num)
  exact ⟨hv, C6_scenario hv⟩
